import Mathlib

/-!
Verification of the multi-chapter report assembly pipeline of the
Deepsonar-AI repository: the global reference deduplication manager
(`src/ai_engine/utils.py`, class `GlobalReferenceManager`), the chapter
output parser (`parse_chapter_output`, `extract_refs_from_text`), the
per-chapter reference construction (`src/ai_engine/generator.py`,
`generate_single_chapter`) and the assembly loop
(`src/interface/app.py`, `generate_long_report`).

Strings are modelled as Lean `String` (a wrapper around `List Char`);
the Python regular expressions used by the source are translated into
explicit character-list matchers with the exact greedy and backtracking
behaviour of the patterns involved.  Python `str.strip` is modelled by
`pyStrip` over the ASCII whitespace characters that `strip`/`\s` honour.
-/

namespace S2P

/-- The ASCII whitespace characters recognised by Python `str.strip()` and
by the regex class `\s` (space, tab, newline, carriage return, vertical
tab, form feed). -/
def pyIsSpace (c : Char) : Bool :=
  c = ' ' || c = '\t' || c = '\n' || c = '\r' || c = Char.ofNat 11 || c = Char.ofNat 12

/-- Python `str.strip()` on a character list: drop whitespace from both ends. -/
def pyStripL (l : List Char) : List Char :=
  ((l.dropWhile pyIsSpace).reverse.dropWhile pyIsSpace).reverse

/-- Python `str.strip()` on a string. -/
def pyStrip (s : String) : String :=
  String.mk (pyStripL s.data)

/-- Lookup in an association list, first binding wins (Python `dict`
lookup: keys are unique in every dict we build, so first = only). -/
def lookupAssoc {α : Type} (m : List (String × α)) (k : String) : Option α :=
  match m with
  | [] => none
  | (k₁, v) :: rest => if k₁ = k then some v else lookupAssoc rest k

/-- Python `dict` assignment `m[k] = v`: overwrite the binding of `k` if
present (keeping its position), otherwise append the new binding. -/
def updateAssoc (m : List (String × String)) (k v : String) : List (String × String) :=
  match m with
  | [] => [(k, v)]
  | (k₁, v₁) :: rest => if k₁ = k then (k, v) :: rest else (k₁, v₁) :: updateAssoc rest k v

/-! ## The citation marker pattern

`re.sub(r"\[Ref-\d+\]", ...)` in `process_chapter_content`: a marker is
a literal `[Ref-` followed by one or more ASCII digits followed by `]`.
`\d+` is greedy and a shorter digit run can never be followed by `]`,
so a match at a position is exactly: the maximal digit run after
`[Ref-`, immediately followed by `]`. -/

/-- Try to match the regex `\[Ref-\d+\]` at the head of the character list.
Returns the matched tag and the remaining characters. -/
def matchMarker : List Char → Option (List Char × List Char)
  | '[' :: 'R' :: 'e' :: 'f' :: '-' :: r =>
      if (r.takeWhile Char.isDigit).isEmpty then none
      else
        match r.dropWhile Char.isDigit with
        | ']' :: rest₂ =>
            some ('[' :: 'R' :: 'e' :: 'f' :: '-' :: (r.takeWhile Char.isDigit ++ [']']), rest₂)
        | _ => none
  | _ => none

/-- One piece of the `re.sub` decomposition of a chapter body: either a
single character outside every match, or one matched marker tag. -/
inductive Chunk where
  | text (c : Char)
  | marker (tag : List Char)
deriving DecidableEq

/-- Decompose a character list into non-match characters and marker
matches, scanning left to right, non-overlapping, exactly as
`re.finditer`/`re.sub` do.  `fuel` bounds the recursion; it is
initialised to the length of the list, which suffices because every
step consumes at least one character. -/
def chunksAux : Nat → List Char → List Chunk
  | 0, _ => []
  | _ + 1, [] => []
  | fuel + 1, c :: cs =>
      match matchMarker (c :: cs) with
      | some (tag, rest) => Chunk.marker tag :: chunksAux fuel rest
      | none => Chunk.text c :: chunksAux fuel cs

/-- The `re.sub` decomposition of a character list. -/
def chunks (cs : List Char) : List Chunk :=
  chunksAux cs.length cs

/-- Render a chunk back to the characters it came from. -/
def renderChunk : Chunk → List Char
  | Chunk.text c => [c]
  | Chunk.marker tag => tag

/-- The replacement function of `re.sub`: a matched tag is replaced by
`local_to_global.get(tag, tag)`; a non-match character is kept. -/
def substChunk (m : List (String × String)) : Chunk → List Char
  | Chunk.text c => [c]
  | Chunk.marker tag =>
      match lookupAssoc m (String.mk tag) with
      | some s => s.data
      | none => tag

/-- The body rewrite of `process_chapter_content`:
`re.sub(r"\[Ref-\d+\]", replace_match, content)` where `replace_match`
returns `local_to_global.get(tag, tag)`. -/
def rewriteTags (m : List (String × String)) (cs : List Char) : List Char :=
  ((chunks cs).map (substChunk m)).flatten

/-! ## GlobalReferenceManager (`src/ai_engine/utils.py`) -/

/-- One entry of the `chapter_refs` argument of
`process_chapter_content`: the Python dict
`{"id": ..., "url": ..., "title": ...}` built by the generator. -/
structure ChapterRef where
  id : String
  url : String
  title : String
deriving DecidableEq

/-- One entry of `self.global_refs`: the dict
`{"id": global_id, "url": url, "title": title}`. -/
structure GlobalRef where
  id : Nat
  url : String
  title : String
deriving DecidableEq

/-- The mutable state of a `GlobalReferenceManager` instance:
`self.url_map`, `self.next_id`, `self.global_refs`. -/
structure GRMState where
  url_map : List (String × Nat)
  next_id : Nat
  global_refs : List GlobalRef
deriving DecidableEq

/-- `GlobalReferenceManager.__init__`. -/
def GRMState.init : GRMState :=
  { url_map := [], next_id := 1, global_refs := [] }

/-- One iteration of the `for ref in chapter_refs` loop of
`process_chapter_content`: skip when tag or url is empty, otherwise
reuse or assign a global id and record the local mapping. -/
def procRef (st : GRMState) (m : List (String × String)) (ref : ChapterRef) :
    GRMState × List (String × String) :=
  if ref.id = "" ∨ ref.url = "" then (st, m)
  else
    match lookupAssoc st.url_map ref.url with
    | some gid => (st, updateAssoc m ref.id ("[Ref-" ++ Nat.repr gid ++ "]"))
    | none =>
        ({ url_map := st.url_map ++ [(ref.url, st.next_id)],
           next_id := st.next_id + 1,
           global_refs := st.global_refs ++ [⟨st.next_id, ref.url, ref.title⟩] },
         updateAssoc m ref.id ("[Ref-" ++ Nat.repr st.next_id ++ "]"))

/-- The whole `for ref in chapter_refs` loop, threading the manager state
and the `local_to_global` dict. -/
def processRefs (st : GRMState) (m : List (String × String)) :
    List ChapterRef → GRMState × List (String × String)
  | [] => (st, m)
  | r :: rest =>
      let p := procRef st m r
      processRefs p.1 p.2 rest

/-- `GlobalReferenceManager.process_chapter_content`, with the instance
state passed explicitly: build the local-to-global mapping from the
chapter refs, then rewrite every `[Ref-N]` marker of the body through it. -/
def process_chapter_content (st : GRMState) (content : String)
    (chapter_refs : List ChapterRef) : GRMState × String :=
  let p := processRefs st [] chapter_refs
  (p.1, String.mk (rewriteTags p.2 content.data))

/-- `GlobalReferenceManager.get_final_bibliography`. -/
def get_final_bibliography (st : GRMState) : String :=
  if st.global_refs = [] then ""
  else
    String.intercalate "\n"
      ("\n---\n\n## 参考文献 (References)\n" ::
        st.global_refs.map (fun r =>
          "- [Ref-" ++ Nat.repr r.id ++ "] " ++ r.title ++ ", 链接: " ++ r.url))

/-- `GlobalReferenceManager.get_ref_count`. -/
def get_ref_count (st : GRMState) : Nat :=
  st.global_refs.length

/-- A sequence of `process_chapter_content` calls on one manager
instance: each chapter supplies a body and its reference list; the
rewritten bodies are collected in order. -/
def runChapters (st : GRMState) : List (String × List ChapterRef) → GRMState × List String
  | [] => (st, [])
  | (body, refs) :: rest =>
      let p := process_chapter_content st body refs
      let q := runChapters p.1 rest
      (q.1, p.2 :: q.2)

/-! ## The regex fallback of `extract_refs_from_text`

Pattern 1 is `\[Ref-(\d+)\]\s*([^,\n]+),?\s*链接:\s*(https?://[^\s\n]+)`,
pattern 2 is `\[Ref-(\d+)\]\s*(https?://[^\s\n]+)`.  Both are scanned
with `re.finditer` (leftmost, non-overlapping).  The only genuinely
backtracking part is the greedy title group `([^,\n]+)` of pattern 1
interacting with the preceding greedy `\s*`; the matchers below spell
out the resulting search order (longer whitespace run first, within it
longer title first). -/

/-- Match `https?://[^\s\n]+` at the head of the list: literal `http`,
optional `s`, literal `://`, then a maximal nonempty run of
non-whitespace characters.  Returns the URL and the rest. -/
def matchUrl : List Char → Option (List Char × List Char)
  | 'h' :: 't' :: 't' :: 'p' :: 's' :: ':' :: '/' :: '/' :: rest =>
      if (rest.takeWhile (fun c => !pyIsSpace c)).isEmpty then none
      else some ('h' :: 't' :: 't' :: 'p' :: 's' :: ':' :: '/' :: '/' ::
                   rest.takeWhile (fun c => !pyIsSpace c),
                 rest.dropWhile (fun c => !pyIsSpace c))
  | 'h' :: 't' :: 't' :: 'p' :: ':' :: '/' :: '/' :: rest =>
      if (rest.takeWhile (fun c => !pyIsSpace c)).isEmpty then none
      else some ('h' :: 't' :: 't' :: 'p' :: ':' :: '/' :: '/' ::
                   rest.takeWhile (fun c => !pyIsSpace c),
                 rest.dropWhile (fun c => !pyIsSpace c))
  | _ => none

/-- Match the tail `,?\s*链接:\s*(https?://[^\s\n]+)` of pattern 1.
`,?` consumes a comma when present (consuming cannot turn a match into
a failure here because `链` is neither a comma nor whitespace), `\s*`
runs are maximal for the same reason.  Returns the URL group and the
rest after the whole match. -/
def matchP1Tail (cs : List Char) : Option (List Char × List Char) :=
  let cs₁ := match cs with
    | ',' :: r => r
    | _ => cs
  match cs₁.dropWhile pyIsSpace with
  | '链' :: '接' :: ':' :: r =>
      matchUrl (r.dropWhile pyIsSpace)
  | _ => none

/-- Backtracking over the greedy title group `([^,\n]+)` of pattern 1:
try the title length `n`, then `n - 1`, ..., down to `1`.  Returns
(title, url, rest). -/
def tryTitleLens : Nat → List Char → Option (List Char × List Char × List Char)
  | 0, _ => none
  | n + 1, cs =>
      match matchP1Tail (cs.drop (n + 1)) with
      | some (url, rest) => some (cs.take (n + 1), url, rest)
      | none => tryTitleLens n cs

/-- Backtracking over the greedy `\s*` before the title group of
pattern 1: try the whitespace length `w`, then `w - 1`, ..., down to
`0`; for each, the title candidates are a maximal run of `[^,\n]`
characters tried longest first. -/
def tryWsLens : Nat → List Char → Option (List Char × List Char × List Char)
  | 0, cs =>
      tryTitleLens ((cs.takeWhile (fun c => !(c = ',' || c = '\n'))).length) cs
  | w + 1, cs =>
      let rest₁ := cs.drop (w + 1)
      match tryTitleLens ((rest₁.takeWhile (fun c => !(c = ',' || c = '\n'))).length) rest₁ with
      | some res => some res
      | none => tryWsLens w cs

/-- Match pattern 1 `\[Ref-(\d+)\]\s*([^,\n]+),?\s*链接:\s*(https?://[^\s\n]+)`
at the head of the list.  Returns the extracted reference and the rest
after the match. -/
def matchP1At : List Char → Option (ChapterRef × List Char)
  | '[' :: 'R' :: 'e' :: 'f' :: '-' :: r =>
      if (r.takeWhile Char.isDigit).isEmpty then none
      else
        match r.dropWhile Char.isDigit with
        | ']' :: rest₂ =>
            match tryWsLens ((rest₂.takeWhile pyIsSpace).length) rest₂ with
            | some (title, url, rest₃) =>
                some (⟨String.mk ('[' :: 'R' :: 'e' :: 'f' :: '-' ::
                         (r.takeWhile Char.isDigit ++ [']'])),
                       pyStrip (String.mk url),
                       pyStrip (String.mk title)⟩, rest₃)
            | none => none
        | _ => none
  | _ => none

/-- Match pattern 2 `\[Ref-(\d+)\]\s*(https?://[^\s\n]+)` at the head of
the list; the title defaults to the placeholder `参考来源`. -/
def matchP2At : List Char → Option (ChapterRef × List Char)
  | '[' :: 'R' :: 'e' :: 'f' :: '-' :: r =>
      if (r.takeWhile Char.isDigit).isEmpty then none
      else
        match r.dropWhile Char.isDigit with
        | ']' :: rest₂ =>
            match matchUrl (rest₂.dropWhile pyIsSpace) with
            | some (url, rest₃) =>
                some (⟨String.mk ('[' :: 'R' :: 'e' :: 'f' :: '-' ::
                         (r.takeWhile Char.isDigit ++ [']'])),
                       pyStrip (String.mk url),
                       "参考来源"⟩, rest₃)
            | none => none
        | _ => none
  | _ => none

/-- `re.finditer` for pattern 1: leftmost matches, scanning resumes
after each match.  `fuel` is initialised to the length of the text. -/
def scanP1 : Nat → List Char → List ChapterRef
  | 0, _ => []
  | _ + 1, [] => []
  | fuel + 1, c :: cs =>
      match matchP1At (c :: cs) with
      | some (r, rest) => r :: scanP1 fuel rest
      | none => scanP1 fuel cs

/-- `re.finditer` for pattern 2. -/
def scanP2 : Nat → List Char → List ChapterRef
  | 0, _ => []
  | _ + 1, [] => []
  | fuel + 1, c :: cs =>
      match matchP2At (c :: cs) with
      | some (r, rest) => r :: scanP2 fuel rest
      | none => scanP2 fuel cs

/-- All pattern-1 matches of a text (`for match in re.finditer(pattern1, text)`). -/
def extractP1 (text : String) : List ChapterRef :=
  scanP1 text.data.length text.data

/-- All pattern-2 matches of a text. -/
def extractP2 (text : String) : List ChapterRef :=
  scanP2 text.data.length text.data

/-- `extract_refs_from_text` (`src/ai_engine/utils.py`): collect the
pattern-1 matches; only if there are none (`if not refs:`), fall back to
the pattern-2 matches. -/
def extract_refs_from_text (text : String) : List ChapterRef :=
  let refs := extractP1 text
  if refs = [] then extractP2 text else refs

/-! ## `parse_chapter_output` (`src/ai_engine/utils.py`) -/

/-- The characters of the separator token `---REFS---`. -/
def sepREFS : List Char := "---REFS---".data

/-- Split a character list at the first occurrence of `sep`
(`raw_output.split("---REFS---", 1)`); `none` when `sep` does not occur
(`"---REFS---" not in raw_output`). -/
def splitOnFirst (sep : List Char) : List Char → Option (List Char × List Char)
  | [] => if sep.isPrefixOf ([] : List Char) then some ([], []) else none
  | c :: cs =>
      if sep.isPrefixOf (c :: cs) then some ([], (c :: cs).drop sep.length)
      else
        match splitOnFirst sep cs with
        | some (pre, post) => some (c :: pre, post)
        | none => none

/-- Python `str.split(sep)` for a one-character separator, keeping empty
pieces: the result is never empty and joining it with `sep` gives back
the input. -/
def splitChar (sep : Char) : List Char → List (List Char)
  | [] => [[]]
  | c :: cs =>
      let r := splitChar sep cs
      if c = sep then [] :: r
      else
        match r with
        | [] => [[c]]
        | h :: t => (c :: h) :: t

/-- One iteration of the `for line in refs_part.split('\n')` loop: strip
the line, skip it when empty or without a pipe, split on pipes and keep
it only when it has at least three fields, each stripped. -/
def parseRefLine (line : List Char) : Option ChapterRef :=
  let l := pyStripL line
  if l = [] ∨ ¬ l.contains '|' then none
  else
    let segs := splitChar '|' l
    if 3 ≤ segs.length then
      some ⟨String.mk (pyStripL (segs.getD 0 [])),
            String.mk (pyStripL (segs.getD 1 [])),
            String.mk (pyStripL (segs.getD 2 []))⟩
    else none

/-- `parse_chapter_output`: when the separator token is absent, return
the stripped input together with the regex fallback extraction;
otherwise the part before the first separator (stripped) is the body
and the lines of the stripped part after it are parsed one by one. -/
def parse_chapter_output (raw_output : String) : String × List ChapterRef :=
  match splitOnFirst sepREFS raw_output.data with
  | none => (pyStrip raw_output, extract_refs_from_text raw_output)
  | some (pre, post) =>
      (String.mk (pyStripL pre),
       (splitChar '\n' (pyStripL post)).filterMap parseRefLine)

/-! ## `generate_single_chapter` (`src/ai_engine/generator.py`) and the
assembly loop of `generate_long_report` (`src/interface/app.py`)

The two external collaborators (the search provider and the LLM) are
modelled by their outcomes: an `Except String` value that is an error
exactly when the corresponding Python call raises.  In
`generate_single_chapter` the `pre_search` call sits outside the
`try` block, so a search failure propagates to the caller; the LLM
`completion` call sits inside it, so a generation failure is caught
and turned into the body `章节生成失败: <reason>` with an empty
reference list.  The chapter loop of `generate_long_report` wraps each
chapter in its own `try`/`except` that appends the heading followed by
the placeholder `*[章节生成失败]*` and continues. -/

/-- One search result as used by the generator
(`item.get('url', '')`, `item.get('title', '参考来源')`). -/
structure Source where
  url : String
  title : String
deriving DecidableEq

/-- The `for i, item in enumerate(search_data['raw_data'], 1)` loop of
`generate_single_chapter`: the authoritative reference list is built
from the search candidates, tag `[Ref-i]` with 1-based `i` in candidate
order. -/
def buildRefsAux (i : Nat) : List Source → List ChapterRef
  | [] => []
  | s :: rest => ⟨"[Ref-" ++ Nat.repr i ++ "]", s.url, s.title⟩ :: buildRefsAux (i + 1) rest

/-- The reference list constructed from the search candidates. -/
def buildRefs (data : List Source) : List ChapterRef :=
  buildRefsAux 1 data

/-- `generate_single_chapter`, as a function of the outcomes of its two
collaborator calls.  On success the body is the content part of
`parse_chapter_output` applied to the raw LLM output (the parsed
references are discarded) paired with `buildRefs` of the search data. -/
def generateSingleChapter (search : Except String (List Source))
    (gen : Except String String) : Except String (String × List ChapterRef) :=
  match search with
  | Except.error e => Except.error e
  | Except.ok data =>
      match gen with
      | Except.error e => Except.ok ("章节生成失败: " ++ e, [])
      | Except.ok raw => Except.ok ((parse_chapter_output raw).1, buildRefs data)

/-- One chapter of the assembly loop: its outline title and the outcomes
of its search call and of its generation call. -/
abbrev ChapterInput := String × Except String (List Source) × Except String String

/-- The `for index, chapter_info in enumerate(outline)` loop of
`generate_long_report`: on success the chapter is processed through the
reference manager and appended as `## title`, body, blank line; when
`generate_single_chapter` raises, the `except` branch appends the
heading with the placeholder `*[章节生成失败]*` and the loop continues. -/
def assembleChapters (st : GRMState) (doc : String) :
    List ChapterInput → GRMState × String
  | [] => (st, doc)
  | (title, search, gen) :: rest =>
      match generateSingleChapter search gen with
      | Except.error _ =>
          assembleChapters st (doc ++ "## " ++ title ++ "\n\n*[章节生成失败]*\n\n") rest
      | Except.ok (content, refs) =>
          let p := process_chapter_content st content refs
          assembleChapters p.1 (doc ++ "## " ++ title ++ "\n\n" ++ p.2 ++ "\n\n") rest

/-- The report header built before the chapter loop; the generation
timestamp is a parameter. -/
def reportHeader (topic time : String) : String :=
  "# " ++ topic ++ " 深度行业分析报告\n\n*生成时间: " ++ time ++ "*\n\n---\n\n"

/-- `generate_long_report` from the outline onwards: header, chapter
loop, final bibliography.  The codomain is `Except` so that a raised
error would be representable; the function body has no raising path
(every per-chapter failure is absorbed by the loop). -/
def generate_long_report (topic time : String) (chapters : List ChapterInput) :
    Except String String :=
  Except.ok ((assembleChapters GRMState.init (reportHeader topic time) chapters).2 ++
    get_final_bibliography (assembleChapters GRMState.init (reportHeader topic time) chapters).1)

/-! ## Association list lemmas -/

theorem lookupAssoc_updateAssoc (m : List (String × String)) (k v k₁ : String) :
    lookupAssoc (updateAssoc m k v) k₁ = if k = k₁ then some v else lookupAssoc m k₁ := by
  induction m with
  | nil => simp [updateAssoc, lookupAssoc]
  | cons p rest ih =>
      obtain ⟨k₂, v₂⟩ := p
      by_cases h₂ : k₂ = k
      · subst h₂
        by_cases h₁ : k₂ = k₁ <;> simp [updateAssoc, lookupAssoc, h₁]
      · by_cases h₁ : k₂ = k₁
        · subst h₁
          have hne : ¬ k = k₂ := fun he => h₂ he.symm
          simp [updateAssoc, lookupAssoc, h₂, hne]
        · simp [updateAssoc, lookupAssoc, h₂, h₁, ih]

theorem lookupAssoc_append_some {α : Type} {a : List (String × α)} {k : String} {v : α}
    (b : List (String × α)) (h : lookupAssoc a k = some v) :
    lookupAssoc (a ++ b) k = some v := by
  induction a with
  | nil => simp [lookupAssoc] at h
  | cons p rest ih =>
      obtain ⟨k₁, v₁⟩ := p
      simp only [lookupAssoc, List.cons_append] at h ⊢
      by_cases h₁ : k₁ = k <;> simp_all

theorem lookupAssoc_append_none {α : Type} {a : List (String × α)} {k : String}
    (b : List (String × α)) (h : lookupAssoc a k = none) :
    lookupAssoc (a ++ b) k = lookupAssoc b k := by
  induction a with
  | nil => simp
  | cons p rest ih =>
      obtain ⟨k₁, v₁⟩ := p
      simp only [lookupAssoc, List.cons_append] at h ⊢
      by_cases h₁ : k₁ = k <;> simp_all

theorem lookupAssoc_isSome_iff {α : Type} (m : List (String × α)) (k : String) :
    (lookupAssoc m k).isSome = true ↔ k ∈ m.map Prod.fst := by
  induction m with
  | nil => simp [lookupAssoc]
  | cons p rest ih =>
      obtain ⟨k₁, v₁⟩ := p
      by_cases h₁ : k₁ = k
      · subst h₁
        simp [lookupAssoc]
      · have hne : ¬ k = k₁ := fun he => h₁ he.symm
        simp [lookupAssoc, h₁, hne, ih]

/-! ## Marker decomposition lemmas -/

theorem matchMarker_spec {cs tag rest : List Char} (h : matchMarker cs = some (tag, rest)) :
    cs = tag ++ rest ∧ tag ≠ [] := by
  rw [matchMarker.eq_def] at h
  split at h
  · rename_i r
    by_cases hds : (r.takeWhile Char.isDigit).isEmpty = true
    · simp [hds] at h
    · rw [if_neg hds] at h
      split at h
      · rename_i rest₂ heq
        injection h with h₁
        injection h₁ with h₂ h₃
        subst h₂
        subst h₃
        refine ⟨?_, by simp⟩
        have hsplit : r.takeWhile Char.isDigit ++ ']' :: rest₂ = r := by
          conv_rhs => rw [← List.takeWhile_append_dropWhile Char.isDigit r]
          rw [heq]
        generalize hg : r.takeWhile Char.isDigit = ds at hsplit ⊢
        rw [← hsplit]
        simp
      · exact absurd h (by simp)
  · exact absurd h (by simp)

theorem chunksAux_render :
    ∀ (fuel : Nat) (cs : List Char), cs.length ≤ fuel →
      ((chunksAux fuel cs).map renderChunk).flatten = cs := by
  intro fuel
  induction fuel with
  | zero =>
      intro cs h
      have : cs = [] := List.length_eq_zero.mp (Nat.le_zero.mp h)
      subst this
      simp [chunksAux]
  | succ n ih =>
      intro cs h
      match cs with
      | [] => simp [chunksAux]
      | c :: cs' =>
          rw [chunksAux]
          cases hm : matchMarker (c :: cs') with
          | none =>
              have hlen : cs'.length ≤ n := by
                simpa using Nat.le_of_succ_le_succ h
              simp [renderChunk, ih cs' hlen]
          | some pr =>
              obtain ⟨tag, rest⟩ := pr
              obtain ⟨heq, hne⟩ := matchMarker_spec hm
              have hlen : rest.length ≤ n := by
                have h₁ : (c :: cs').length = tag.length + rest.length := by
                  rw [heq, List.length_append]
                have h₂ : 1 ≤ tag.length := by
                  cases tag with
                  | nil => exact absurd rfl hne
                  | cons _ _ => simp
                simp only [List.length_cons] at h h₁
                omega
              simp [renderChunk, ih rest hlen, ← heq]

theorem chunks_render (cs : List Char) :
    ((chunks cs).map renderChunk).flatten = cs :=
  chunksAux_render cs.length cs le_rfl

theorem substChunk_nil (ch : Chunk) : substChunk [] ch = renderChunk ch := by
  cases ch <;> simp [substChunk, renderChunk, lookupAssoc]

theorem rewriteTags_nil (cs : List Char) : rewriteTags [] cs = cs := by
  have h : (chunks cs).map (substChunk []) = (chunks cs).map renderChunk :=
    List.map_congr_left (fun ch _ => substChunk_nil ch)
  rw [rewriteTags, h, chunks_render]

theorem rewriteTags_unmapped (m : List (String × String)) (cs : List Char)
    (h : ∀ tag, Chunk.marker tag ∈ chunks cs → lookupAssoc m (String.mk tag) = none) :
    rewriteTags m cs = cs := by
  have heq : (chunks cs).map (substChunk m) = (chunks cs).map renderChunk := by
    refine List.map_congr_left (fun ch hch => ?_)
    cases ch with
    | text c => rfl
    | marker tag => simp [substChunk, renderChunk, h tag hch]
  rw [rewriteTags, heq, chunks_render]

/-! ## Lemmas on reference processing -/

theorem procRef_empty_url (st : GRMState) (m : List (String × String)) (r : ChapterRef)
    (h : r.url = "") : procRef st m r = (st, m) := by
  simp [procRef, h]

theorem processRefs_all_empty_url (st : GRMState) (m : List (String × String))
    (refs : List ChapterRef) (h : ∀ r ∈ refs, r.url = "") :
    processRefs st m refs = (st, m) := by
  induction refs with
  | nil => rfl
  | cons r rest ih =>
      rw [processRefs, procRef_empty_url st m r (h r (by simp))]
      exact ih (fun x hx => h x (by simp [hx]))

theorem processRefs_lookup_of_tag_empty_url (refs : List ChapterRef) :
    ∀ (st : GRMState) (m : List (String × String)) (tag : String),
      (∀ r ∈ refs, r.id = tag → r.url = "") →
      lookupAssoc (processRefs st m refs).2 tag = lookupAssoc m tag := by
  induction refs with
  | nil => intro st m tag _; rfl
  | cons r rest ih =>
      intro st m tag h
      rw [processRefs]
      by_cases hskip : r.id = "" ∨ r.url = ""
      · rw [show procRef st m r = (st, m) by simp [procRef, hskip]]
        exact ih st m tag (fun x hx => h x (by simp [hx]))
      · push_neg at hskip
        have htag : r.id ≠ tag := fun he => hskip.2 (h r (by simp) he)
        have hrest : ∀ x ∈ rest, x.id = tag → x.url = "" :=
          fun x hx => h x (by simp [hx])
        rw [procRef]
        simp only [if_neg (by tauto : ¬ (r.id = "" ∨ r.url = ""))]
        cases hl : lookupAssoc st.url_map r.url with
        | some gid =>
            rw [ih _ _ tag hrest, lookupAssoc_updateAssoc]
            simp [htag]
        | none =>
            rw [ih _ _ tag hrest, lookupAssoc_updateAssoc]
            simp [htag]

theorem process_chapter_content_all_empty_url (st : GRMState) (content : String)
    (refs : List ChapterRef) (h : ∀ r ∈ refs, r.url = "") :
    process_chapter_content st content refs = (st, content) := by
  rw [process_chapter_content, processRefs_all_empty_url st [] refs h]
  simp [rewriteTags_nil]

/-! ## Lemmas on the constructed reference list -/

theorem buildRefsAux_length : ∀ (data : List Source) (i : Nat),
    (buildRefsAux i data).length = data.length := by
  intro data
  induction data with
  | nil => intro i; rfl
  | cons s rest ih => intro i; simp [buildRefsAux, ih]

theorem buildRefsAux_getD : ∀ (data : List Source) (i j : Nat), j < data.length →
    (buildRefsAux i data).getD j ⟨"", "", ""⟩ =
      ⟨"[Ref-" ++ Nat.repr (i + j) ++ "]",
       (data.getD j ⟨"", ""⟩).url, (data.getD j ⟨"", ""⟩).title⟩ := by
  intro data
  induction data with
  | nil => intro i j h; simp at h
  | cons s rest ih =>
      intro i j h
      cases j with
      | zero => simp [buildRefsAux]
      | succ j' =>
          have hj : j' < rest.length := by simpa using Nat.lt_of_succ_lt_succ h
          have hrw : i + 1 + j' = i + (j' + 1) := by omega
          simp only [buildRefsAux, List.getD_cons_succ]
          rw [ih (i + 1) j' hj, hrw]

/-! ## Claim theorems: C2, C4, C5, C6 -/

/-- C2: GlobalReferenceManager is deterministic — two fresh manager
instances fed the identical ordered sequence of (body, local_refs)
chapter inputs produce identical rewritten bodies, identical global
reference assignments and identical final bibliography text.  In the
embedding every run is a pure function of the inputs (the dicts the
code consults are iterated in insertion order and nothing else is
read), so determinism is: equal fresh states and equal input sequences
give equal outputs. -/
theorem c2_determinism (st₁ st₂ : GRMState) (h₁ : st₁ = GRMState.init)
    (h₂ : st₂ = GRMState.init) (chs₁ chs₂ : List (String × List ChapterRef))
    (h : chs₁ = chs₂) :
    (runChapters st₁ chs₁).2 = (runChapters st₂ chs₂).2 ∧
    (runChapters st₁ chs₁).1.global_refs = (runChapters st₂ chs₂).1.global_refs ∧
    get_final_bibliography (runChapters st₁ chs₁).1 =
      get_final_bibliography (runChapters st₂ chs₂).1 := by
  subst h₁
  subst h₂
  subst h
  exact ⟨rfl, rfl, rfl⟩

/-- Witness for C2 at a concrete two-chapter input. -/
theorem c2_determinism_witness :
    (runChapters GRMState.init
        [("A [Ref-1]", [⟨"[Ref-1]", "https://x.com", "X"⟩]),
         ("B [Ref-1]", [⟨"[Ref-1]", "https://x.com", "X-renamed"⟩])]).2 =
      (runChapters GRMState.init
        [("A [Ref-1]", [⟨"[Ref-1]", "https://x.com", "X"⟩]),
         ("B [Ref-1]", [⟨"[Ref-1]", "https://x.com", "X-renamed"⟩])]).2 ∧
    (runChapters GRMState.init
        [("A [Ref-1]", [⟨"[Ref-1]", "https://x.com", "X"⟩]),
         ("B [Ref-1]", [⟨"[Ref-1]", "https://x.com", "X-renamed"⟩])]).1.global_refs =
      (runChapters GRMState.init
        [("A [Ref-1]", [⟨"[Ref-1]", "https://x.com", "X"⟩]),
         ("B [Ref-1]", [⟨"[Ref-1]", "https://x.com", "X-renamed"⟩])]).1.global_refs ∧
    get_final_bibliography (runChapters GRMState.init
        [("A [Ref-1]", [⟨"[Ref-1]", "https://x.com", "X"⟩]),
         ("B [Ref-1]", [⟨"[Ref-1]", "https://x.com", "X-renamed"⟩])]).1 =
      get_final_bibliography (runChapters GRMState.init
        [("A [Ref-1]", [⟨"[Ref-1]", "https://x.com", "X"⟩]),
         ("B [Ref-1]", [⟨"[Ref-1]", "https://x.com", "X-renamed"⟩])]).1 :=
  c2_determinism GRMState.init GRMState.init rfl rfl _ _ rfl

/-- C4: the reference list handed to the reference manager for a
chapter is built solely from the search candidates supplied to the
generation step — tags [Ref-1]..[Ref-N] in candidate order, each
carrying that candidate's url and title — and the references parsed
out of the generated text are discarded: the success result of
`generateSingleChapter` pairs the parsed body with `buildRefs data`,
which does not depend on the raw LLM output. -/
theorem c4_refs_from_search (data : List Source) (raw : String) :
    generateSingleChapter (Except.ok data) (Except.ok raw) =
      Except.ok ((parse_chapter_output raw).1, buildRefs data) ∧
    (buildRefs data).length = data.length ∧
    (∀ i, i < data.length →
      (buildRefs data).getD i ⟨"", "", ""⟩ =
        ⟨"[Ref-" ++ Nat.repr (i + 1) ++ "]",
         (data.getD i ⟨"", ""⟩).url, (data.getD i ⟨"", ""⟩).title⟩) := by
  refine ⟨rfl, buildRefsAux_length data 1, ?_⟩
  intro i hi
  rw [buildRefs, buildRefsAux_getD data 1 i hi, Nat.add_comm 1 i]

/-- Witness for C4 at two concrete search candidates. -/
theorem c4_refs_from_search_witness :
    generateSingleChapter
        (Except.ok [⟨"https://a.com", "A"⟩, ⟨"https://b.com", "B"⟩])
        (Except.ok "body text") =
      Except.ok ((parse_chapter_output "body text").1,
        buildRefs [⟨"https://a.com", "A"⟩, ⟨"https://b.com", "B"⟩]) ∧
    ((1 : Nat) < 2 ∧
      (buildRefs [⟨"https://a.com", "A"⟩, ⟨"https://b.com", "B"⟩]).getD 1 ⟨"", "", ""⟩ =
        ⟨"[Ref-" ++ Nat.repr (1 + 1) ++ "]", "https://b.com", "B"⟩) ∧
    buildRefs [⟨"https://a.com", "A"⟩, ⟨"https://b.com", "B"⟩] =
      [⟨"[Ref-1]", "https://a.com", "A"⟩, ⟨"[Ref-2]", "https://b.com", "B"⟩] :=
  ⟨(c4_refs_from_search [⟨"https://a.com", "A"⟩, ⟨"https://b.com", "B"⟩] "body text").1,
   ⟨by decide,
    (c4_refs_from_search [⟨"https://a.com", "A"⟩, ⟨"https://b.com", "B"⟩]
      "body text").2.2 1 (by decide)⟩,
   by decide⟩

/-- C5: for every body and local_refs, each substring of the body
matching the marker pattern `[Ref-<digits>]` whose exact tag has no
entry in the per-chapter mapping built from local_refs appears
verbatim, at the same place, in the body returned by
`process_chapter_content`: the body decomposes uniquely into plain
characters and matched markers, the returned body is the chunkwise
image of that decomposition under the mapping, and an unmapped marker
chunk contributes exactly its own characters. -/
theorem c5_unmapped_pass_through (st : GRMState) (content : String)
    (refs : List ChapterRef) :
    ((chunks content.data).map renderChunk).flatten = content.data ∧
    (process_chapter_content st content refs).2 =
      String.mk (((chunks content.data).map
        (substChunk (processRefs st [] refs).2)).flatten) ∧
    (∀ tag, lookupAssoc (processRefs st [] refs).2 (String.mk tag) = none →
      substChunk (processRefs st [] refs).2 (Chunk.marker tag) = tag) := by
  refine ⟨chunks_render content.data, rfl, ?_⟩
  intro tag h
  simp [substChunk, h]

/-- Witness for C5: the spec example — body `See [Ref-9].` with a
reference list that has no tag `[Ref-9]` keeps the literal marker. -/
theorem c5_unmapped_pass_through_witness :
    ((chunks ("See [Ref-9].").data).map renderChunk).flatten = ("See [Ref-9].").data ∧
    substChunk (processRefs GRMState.init []
        [⟨"[Ref-1]", "https://x.com", "X"⟩]).2 (Chunk.marker ("[Ref-9]".data)) =
      "[Ref-9]".data ∧
    (process_chapter_content GRMState.init "See [Ref-9]."
        [⟨"[Ref-1]", "https://x.com", "X"⟩]).2 = "See [Ref-9]." :=
  ⟨(c5_unmapped_pass_through GRMState.init "See [Ref-9]."
      [⟨"[Ref-1]", "https://x.com", "X"⟩]).1,
   (c5_unmapped_pass_through GRMState.init "See [Ref-9]."
      [⟨"[Ref-1]", "https://x.com", "X"⟩]).2.2 ("[Ref-9]".data) (by decide),
   by decide⟩

/-- C6: a local reference whose url is the empty string is never
promoted to a global reference — the processing step for it leaves the
manager state (bibliography entries and id counter) and the local
mapping unchanged; a chapter whose references all have empty urls
leaves the state and the body unchanged; and a tag bound only by
empty-url references is absent from the final mapping, so its markers
are left unrewritten. -/
theorem c6_empty_url_excluded :
    (∀ (st : GRMState) (m : List (String × String)) (r : ChapterRef),
        r.url = "" → procRef st m r = (st, m)) ∧
    (∀ (st : GRMState) (content : String) (refs : List ChapterRef),
        (∀ r ∈ refs, r.url = "") →
        process_chapter_content st content refs = (st, content)) ∧
    (∀ (st : GRMState) (refs : List ChapterRef) (tag : String),
        (∀ r ∈ refs, r.id = tag → r.url = "") →
        lookupAssoc (processRefs st [] refs).2 tag = none) :=
  ⟨procRef_empty_url,
   process_chapter_content_all_empty_url,
   fun st refs tag h => by
     rw [processRefs_lookup_of_tag_empty_url refs st [] tag h]
     rfl⟩

/-- Witness for C6 at concrete references with empty urls. -/
theorem c6_empty_url_excluded_witness :
    procRef GRMState.init [] ⟨"[Ref-1]", "", "T"⟩ = (GRMState.init, []) ∧
    process_chapter_content GRMState.init "B [Ref-1] C" [⟨"[Ref-1]", "", "T"⟩] =
      (GRMState.init, "B [Ref-1] C") ∧
    lookupAssoc (processRefs GRMState.init []
        [⟨"[Ref-1]", "", "T"⟩, ⟨"[Ref-2]", "https://y.com", "Y"⟩]).2 "[Ref-1]" = none :=
  ⟨c6_empty_url_excluded.1 GRMState.init [] ⟨"[Ref-1]", "", "T"⟩ rfl,
   c6_empty_url_excluded.2.1 GRMState.init "B [Ref-1] C" [⟨"[Ref-1]", "", "T"⟩] (by decide),
   c6_empty_url_excluded.2.2 GRMState.init
     [⟨"[Ref-1]", "", "T"⟩, ⟨"[Ref-2]", "https://y.com", "Y"⟩] "[Ref-1]" (by decide)⟩

/-! ## Lemmas on line splitting and the reference-line parser -/

theorem splitChar_not_contains (sep : Char) (l : List Char)
    (h : l.contains sep = false) : splitChar sep l = [l] := by
  induction l with
  | nil => rfl
  | cons c cs ih =>
      rw [List.contains_cons] at h
      have hc : ¬ c = sep := by
        intro he
        subst he
        simp at h
      have hcs : cs.contains sep = false := by
        cases hx : cs.contains sep
        · rfl
        · rw [hx] at h; simp at h
      rw [splitChar]
      simp only [hc, if_false, ih hcs]

theorem parseRefLine_blank (line : List Char) (h : pyStripL line = []) :
    parseRefLine line = none := by
  simp [parseRefLine, h]

theorem parseRefLine_short (line : List Char)
    (h : (splitChar '|' (pyStripL line)).length < 3) : parseRefLine line = none := by
  rw [parseRefLine]
  by_cases h₁ : pyStripL line = [] ∨ ¬ (pyStripL line).contains '|'
  · rw [if_pos h₁]
  · rw [if_neg h₁, if_neg (Nat.not_le.mpr h)]

theorem parseRefLine_fields (line : List Char)
    (h : 3 ≤ (splitChar '|' (pyStripL line)).length) :
    parseRefLine line =
      some ⟨String.mk (pyStripL ((splitChar '|' (pyStripL line)).getD 0 [])),
            String.mk (pyStripL ((splitChar '|' (pyStripL line)).getD 1 [])),
            String.mk (pyStripL ((splitChar '|' (pyStripL line)).getD 2 []))⟩ := by
  have h₁ : ¬ (pyStripL line = [] ∨ ¬ (pyStripL line).contains '|') := by
    rintro (he | hc)
    · rw [he] at h
      simp [splitChar] at h
    · have hf : (pyStripL line).contains '|' = false := by
        cases hx : (pyStripL line).contains '|'
        · rfl
        · exact absurd hx hc
      rw [splitChar_not_contains '|' (pyStripL line) hf] at h
      simp at h
  rw [parseRefLine, if_neg h₁, if_pos h]

/-! ## Claim theorems: C7, C8, C9 -/

/-- C7: in the separator branch of the parser, the text before the
separator becomes the body trimmed of surrounding whitespace, and each
line after it is split on pipes, skipping blank lines and lines with
fewer than three fields and trimming whitespace on each field; in
particular the spec round-trip example holds. -/
theorem c7_separator_branch :
    (∀ (raw : String) (pre post : List Char),
        splitOnFirst sepREFS raw.data = some (pre, post) →
        parse_chapter_output raw =
          (String.mk (pyStripL pre),
           (splitChar '\n' (pyStripL post)).filterMap parseRefLine)) ∧
    (∀ line, pyStripL line = [] → parseRefLine line = none) ∧
    (∀ line, (splitChar '|' (pyStripL line)).length < 3 → parseRefLine line = none) ∧
    (∀ line, 3 ≤ (splitChar '|' (pyStripL line)).length →
        parseRefLine line =
          some ⟨String.mk (pyStripL ((splitChar '|' (pyStripL line)).getD 0 [])),
                String.mk (pyStripL ((splitChar '|' (pyStripL line)).getD 1 [])),
                String.mk (pyStripL ((splitChar '|' (pyStripL line)).getD 2 []))⟩) ∧
    parse_chapter_output "Body text.\n---REFS---\n[Ref-1] | https://a.com | Title A\n" =
      ("Body text.", [⟨"[Ref-1]", "https://a.com", "Title A"⟩]) := by
  refine ⟨?_, parseRefLine_blank, parseRefLine_short, parseRefLine_fields, by decide⟩
  intro raw pre post h
  rw [parse_chapter_output, h]

/-- Witness for C7: the separator-branch equation and the field parser
applied at the spec example. -/
theorem c7_separator_branch_witness :
    parse_chapter_output "Body text.\n---REFS---\n[Ref-1] | https://a.com | Title A\n" =
      (String.mk (pyStripL ("Body text.\n").data),
       (splitChar '\n' (pyStripL ("\n[Ref-1] | https://a.com | Title A\n").data)).filterMap
         parseRefLine) ∧
    parseRefLine ("[Ref-1] | https://a.com | Title A").data =
      some ⟨"[Ref-1]", "https://a.com", "Title A"⟩ ∧
    parseRefLine (" \n ").data = none ∧
    parseRefLine ("only one | pipe").data = none := by
  refine ⟨c7_separator_branch.1 _ _ _ (by decide), ?_, ?_, ?_⟩
  · rw [c7_separator_branch.2.2.2.1 _ (by decide)]
    decide
  · exact c7_separator_branch.2.1 _ (by decide)
  · exact c7_separator_branch.2.2.1 _ (by decide)

/-- C8: `parse_chapter_output` is total by construction and never
raises; when the separator token is absent it returns the whole
stripped input as body together with the two-tier regex fallback
extraction, and when the fallback also yields nothing it returns the
stripped input with an empty reference list. -/
theorem c8_no_separator_fallback (raw : String)
    (h : splitOnFirst sepREFS raw.data = none) :
    parse_chapter_output raw = (pyStrip raw, extract_refs_from_text raw) ∧
    (extract_refs_from_text raw = [] →
      parse_chapter_output raw = (pyStrip raw, [])) := by
  constructor
  · rw [parse_chapter_output, h]
  · intro he
    rw [parse_chapter_output, h, he]

/-- Witness for C8: an input without the separator and without any
fallback match. -/
theorem c8_no_separator_fallback_witness :
    parse_chapter_output "plain prose, no refs" =
      (pyStrip "plain prose, no refs", extract_refs_from_text "plain prose, no refs") ∧
    parse_chapter_output "plain prose, no refs" = (pyStrip "plain prose, no refs", []) ∧
    pyStrip "plain prose, no refs" = "plain prose, no refs" :=
  ⟨(c8_no_separator_fallback "plain prose, no refs" (by decide)).1,
   (c8_no_separator_fallback "plain prose, no refs" (by decide)).2 (by decide),
   by decide⟩

/-! Lemmas for C9: every pattern-2 match carries the placeholder title. -/

theorem matchP2At_title {cs : List Char} {r : ChapterRef} {rest : List Char}
    (h : matchP2At cs = some (r, rest)) : r.title = "参考来源" := by
  rw [matchP2At.eq_def] at h
  split at h
  · rename_i r₁
    by_cases hds : (r₁.takeWhile Char.isDigit).isEmpty = true
    · simp [hds] at h
    · rw [if_neg hds] at h
      split at h
      · split at h
        · injection h with h₁
          injection h₁ with h₂ h₃
          subst h₂
          rfl
        · exact absurd h (by simp)
      · exact absurd h (by simp)
  · exact absurd h (by simp)

theorem scanP2_title : ∀ (fuel : Nat) (cs : List Char) (r : ChapterRef),
    r ∈ scanP2 fuel cs → r.title = "参考来源" := by
  intro fuel
  induction fuel with
  | zero => intro cs r h; simp [scanP2] at h
  | succ n ih =>
      intro cs r h
      match cs with
      | [] => simp [scanP2] at h
      | c :: cs' =>
          rw [scanP2] at h
          cases hm : matchP2At (c :: cs') with
          | none =>
              rw [hm] at h
              exact ih cs' r h
          | some pr =>
              obtain ⟨r₀, rest⟩ := pr
              rw [hm] at h
              rcases List.mem_cons.mp h with he | hmem
              · subst he
                exact matchP2At_title hm
              · exact ih rest r hmem

/-- C9: in the no-separator fallback the two extraction patterns are
tried in a fixed order and the first one that yields a non-empty list
wins: the titled `[Ref-N] Title, 链接: URL` pattern is applied first,
the URL-only pattern is consulted only when the first yields nothing,
and every reference the URL-only pattern produces carries the generic
placeholder title `参考来源`. -/
theorem c9_fallback_order (text : String) :
    (extractP1 text ≠ [] → extract_refs_from_text text = extractP1 text) ∧
    (extractP1 text = [] → extract_refs_from_text text = extractP2 text) ∧
    (∀ r ∈ extractP2 text, r.title = "参考来源") := by
  refine ⟨?_, ?_, fun r h => scanP2_title _ _ r h⟩
  · intro h
    simp [extract_refs_from_text, h]
  · intro h
    simp [extract_refs_from_text, h]

/-- Witness for C9: a text matched by the titled pattern and a text
matched only by the URL-only pattern. -/
theorem c9_fallback_order_witness :
    extract_refs_from_text "[Ref-1] T, 链接: https://a.com" =
      extractP1 "[Ref-1] T, 链接: https://a.com" ∧
    extract_refs_from_text "[Ref-1] http://b.com" = extractP2 "[Ref-1] http://b.com" ∧
    extractP2 "[Ref-1] http://b.com" = [⟨"[Ref-1]", "http://b.com", "参考来源"⟩] ∧
    extractP1 "[Ref-1] T, 链接: https://a.com" =
      [⟨"[Ref-1]", "https://a.com", "T"⟩] :=
  ⟨(c9_fallback_order "[Ref-1] T, 链接: https://a.com").1 (by decide),
   (c9_fallback_order "[Ref-1] http://b.com").2.1 (by decide),
   by decide,
   by decide⟩

/-! ## Substring containment -/

/-- Decidable substring test on character lists: `pat` occurs
contiguously somewhere in the list. -/
def containsSeg (pat : List Char) : List Char → Bool
  | [] => pat.isEmpty
  | c :: cs => pat.isPrefixOf (c :: cs) || containsSeg pat cs

/-- Decidable substring test on strings. -/
def strContains (pat s : String) : Bool :=
  containsSeg pat.data s.data

theorem containsSeg_of_isPrefixOf {pat s : List Char} (h : pat.isPrefixOf s = true) :
    containsSeg pat s = true := by
  cases s with
  | nil =>
      cases pat with
      | nil => rfl
      | cons p ps => simp [List.isPrefixOf] at h
  | cons c cs => simp [containsSeg, h]

theorem containsSeg_append_right {pat b : List Char} (a : List Char)
    (h : containsSeg pat b = true) : containsSeg pat (a ++ b) = true := by
  induction a with
  | nil => simpa
  | cons c a₁ ih => simp [containsSeg, ih]

theorem containsSeg_append_left {pat a : List Char} (b : List Char)
    (h : containsSeg pat a = true) : containsSeg pat (a ++ b) = true := by
  induction a with
  | nil =>
      have hp : pat = [] := by
        simpa [containsSeg, List.isEmpty_iff] using h
      subst hp
      cases b with
      | nil => rfl
      | cons c cs => simp [containsSeg, List.isPrefixOf]
  | cons c a₁ ih =>
      rw [containsSeg] at h
      rcases Bool.or_eq_true_iff.mp h with hpre | hrec
      · have h₁ : pat <+: (c :: a₁) := List.isPrefixOf_iff_prefix.mp hpre
        have h₂ : pat <+: (c :: a₁) ++ b := h₁.trans (List.prefix_append _ _)
        rw [List.cons_append, containsSeg]
        rw [List.isPrefixOf_iff_prefix.mpr (by simpa using h₂)]
        rfl
      · rw [List.cons_append, containsSeg, ih hrec]
        simp

theorem strContains_append_right (pat a b : String) (h : strContains pat b = true) :
    strContains pat (a ++ b) = true := by
  rw [strContains, String.data_append]
  exact containsSeg_append_right _ h

theorem strContains_append_left (pat a b : String) (h : strContains pat a = true) :
    strContains pat (a ++ b) = true := by
  rw [strContains, String.data_append]
  exact containsSeg_append_left _ h

theorem strContains_prefix (pat b : String) : strContains pat (pat ++ b) = true := by
  rw [strContains, String.data_append]
  exact containsSeg_of_isPrefixOf
    (List.isPrefixOf_iff_prefix.mpr (List.prefix_append _ _))

/-! ## Lemmas on the assembly loop -/

theorem process_chapter_content_nil (st : GRMState) (c : String) :
    process_chapter_content st c [] = (st, c) := by
  show (st, String.mk (rewriteTags [] c.data)) = (st, c)
  rw [rewriteTags_nil]

theorem assembleChapters_append (xs ys : List ChapterInput) :
    ∀ (st : GRMState) (doc : String),
      assembleChapters st doc (xs ++ ys) =
        assembleChapters (assembleChapters st doc xs).1 (assembleChapters st doc xs).2 ys := by
  induction xs with
  | nil => intro st doc; rfl
  | cons c rest ih =>
      intro st doc
      obtain ⟨title, search, gen⟩ := c
      cases hg : generateSingleChapter search gen with
      | error e =>
          rw [List.cons_append, assembleChapters, hg, assembleChapters, hg]
          exact ih _ _
      | ok pr =>
          obtain ⟨content, refs⟩ := pr
          rw [List.cons_append, assembleChapters, hg, assembleChapters, hg]
          exact ih _ _

theorem assembleChapters_doc_extend (l : List ChapterInput) :
    ∀ (st : GRMState) (doc : String), ∃ s, (assembleChapters st doc l).2 = doc ++ s := by
  induction l with
  | nil => intro st doc; exact ⟨"", (String.append_empty doc).symm⟩
  | cons c rest ih =>
      intro st doc
      obtain ⟨title, search, gen⟩ := c
      cases hg : generateSingleChapter search gen with
      | error e =>
          rw [assembleChapters, hg]
          obtain ⟨s, hs⟩ := ih st (doc ++ "## " ++ title ++ "\n\n*[章节生成失败]*\n\n")
          exact ⟨"## " ++ title ++ "\n\n*[章节生成失败]*\n\n" ++ s,
            by rw [hs]; simp [String.append_assoc]⟩
      | ok pr =>
          obtain ⟨content, refs⟩ := pr
          rw [assembleChapters, hg]
          obtain ⟨s, hs⟩ := ih (process_chapter_content st content refs).1
            (doc ++ "## " ++ title ++ "\n\n" ++ (process_chapter_content st content refs).2 ++ "\n\n")
          exact ⟨"## " ++ title ++ "\n\n" ++ (process_chapter_content st content refs).2 ++ "\n\n" ++ s,
            by rw [hs]; simp [String.append_assoc]⟩

theorem assembleChapters_step_searchFail (st : GRMState) (doc t e : String)
    (gen : Except String String) (post : List ChapterInput) :
    assembleChapters st doc ((t, Except.error e, gen) :: post) =
      assembleChapters st (doc ++ ("## " ++ t ++ "\n\n*[章节生成失败]*\n\n")) post := by
  rw [assembleChapters]
  show assembleChapters st (doc ++ "## " ++ t ++ "\n\n*[章节生成失败]*\n\n") post = _
  simp [String.append_assoc]

theorem assembleChapters_step_genFail (st : GRMState) (doc t e : String)
    (data : List Source) (post : List ChapterInput) :
    assembleChapters st doc ((t, Except.ok data, Except.error e) :: post) =
      assembleChapters st (doc ++ ("## " ++ t ++ "\n\n" ++ ("章节生成失败: " ++ e) ++ "\n\n")) post := by
  rw [assembleChapters]
  show assembleChapters (process_chapter_content st ("章节生成失败: " ++ e) []).1
      (doc ++ "## " ++ t ++ "\n\n" ++ (process_chapter_content st ("章节生成失败: " ++ e) []).2 ++ "\n\n")
      post = _
  rw [process_chapter_content_nil]
  simp [String.append_assoc]

theorem strContains_self (s : String) : strContains s s = true := by
  have h := strContains_prefix s ""
  rwa [String.append_empty] at h

/-! ## Claim theorems: C3, C10 -/

/-- C3: if the search or the generation collaborator call for one
chapter fails, report assembly does not raise (the result is always
`Except.ok`), the failed chapter contributes zero references (the
manager state after it equals the state before it), its heading still
appears in the final document followed by a visible failure
placeholder (either the `*[章节生成失败]*` block of the assembly loop
when the failure propagated, or the `章节生成失败: reason` body produced
inside the generator when the LLM call failed), and the remaining
chapters are processed from the same state and accumulated document as
if the failed chapter had only appended its placeholder block. -/
theorem c3_partial_failure (topic time t : String)
    (search : Except String (List Source)) (gen : Except String String)
    (pre post : List ChapterInput)
    (hfail : (∃ e, search = Except.error e) ∨ (∃ e, gen = Except.error e)) :
    (∃ d, generate_long_report topic time (pre ++ (t, search, gen) :: post) = Except.ok d) ∧
    (assembleChapters GRMState.init (reportHeader topic time) (pre ++ [(t, search, gen)])).1 =
      (assembleChapters GRMState.init (reportHeader topic time) pre).1 ∧
    (∃ block,
      (block = "## " ++ t ++ "\n\n*[章节生成失败]*\n\n" ∨
        ∃ e, gen = Except.error e ∧
          block = "## " ++ t ++ "\n\n" ++ ("章节生成失败: " ++ e) ++ "\n\n") ∧
      (∀ (tail : List ChapterInput) (st : GRMState) (doc : String),
        assembleChapters st doc ((t, search, gen) :: tail) =
          assembleChapters st (doc ++ block) tail) ∧
      (∀ d, generate_long_report topic time (pre ++ (t, search, gen) :: post) = Except.ok d →
        strContains block d = true)) := by
  obtain ⟨block, hb, hstep⟩ :
      ∃ block,
        (block = "## " ++ t ++ "\n\n*[章节生成失败]*\n\n" ∨
          ∃ e, gen = Except.error e ∧
            block = "## " ++ t ++ "\n\n" ++ ("章节生成失败: " ++ e) ++ "\n\n") ∧
        ∀ (tail : List ChapterInput) (st : GRMState) (doc : String),
          assembleChapters st doc ((t, search, gen) :: tail) =
            assembleChapters st (doc ++ block) tail := by
    cases search with
    | error e =>
        exact ⟨_, Or.inl rfl,
          fun tail st doc => assembleChapters_step_searchFail st doc t e gen tail⟩
    | ok data =>
        rcases hfail with ⟨e, he⟩ | ⟨e, he⟩
        · exact absurd he (by simp)
        · subst he
          exact ⟨_, Or.inr ⟨e, rfl, rfl⟩,
            fun tail st doc => assembleChapters_step_genFail st doc t e data tail⟩
  refine ⟨⟨_, rfl⟩, ?_, block, hb, hstep, ?_⟩
  · rw [assembleChapters_append pre [(t, search, gen)], hstep []]
    rfl
  · intro d hd
    simp only [generate_long_report, Except.ok.injEq] at hd
    obtain ⟨s₂, hs₂⟩ := assembleChapters_doc_extend post
      (assembleChapters GRMState.init (reportHeader topic time) pre).1
      ((assembleChapters GRMState.init (reportHeader topic time) pre).2 ++ block)
    have hdoc : (assembleChapters GRMState.init (reportHeader topic time)
        (pre ++ (t, search, gen) :: post)).2 =
        ((assembleChapters GRMState.init (reportHeader topic time) pre).2 ++ block) ++ s₂ := by
      rw [assembleChapters_append pre ((t, search, gen) :: post), hstep post, hs₂]
    rw [← hd, hdoc]
    apply strContains_append_left
    apply strContains_append_left
    apply strContains_append_right
    exact strContains_self block

/-- Witness for C3: chapter 2's generation fails, assembly still
returns normally and chapter 2 adds no references. -/
theorem c3_partial_failure_witness :
    (∃ d, generate_long_report "T" "ti"
        ([("第一章", Except.ok [⟨"https://s1.com", "S1"⟩], Except.ok "一 [Ref-1]")] ++
          ("第二章", Except.ok [⟨"https://s1.com", "S1"⟩], Except.error "timeout") ::
          [("第三章", Except.ok [], Except.ok "三")]) = Except.ok d) ∧
    (assembleChapters GRMState.init (reportHeader "T" "ti")
        ([("第一章", Except.ok [⟨"https://s1.com", "S1"⟩], Except.ok "一 [Ref-1]")] ++
          [("第二章", Except.ok [⟨"https://s1.com", "S1"⟩], Except.error "timeout")])).1 =
      (assembleChapters GRMState.init (reportHeader "T" "ti")
        [("第一章", Except.ok [⟨"https://s1.com", "S1"⟩], Except.ok "一 [Ref-1]")]).1 :=
  ⟨(c3_partial_failure "T" "ti" "第二章"
      (Except.ok [⟨"https://s1.com", "S1"⟩]) (Except.error "timeout")
      [("第一章", Except.ok [⟨"https://s1.com", "S1"⟩], Except.ok "一 [Ref-1]")]
      [("第三章", Except.ok [], Except.ok "三")]
      (Or.inr ⟨"timeout", rfl⟩)).1,
   (c3_partial_failure "T" "ti" "第二章"
      (Except.ok [⟨"https://s1.com", "S1"⟩]) (Except.error "timeout")
      [("第一章", Except.ok [⟨"https://s1.com", "S1"⟩], Except.ok "一 [Ref-1]")]
      [("第三章", Except.ok [], Except.ok "三")]
      (Or.inr ⟨"timeout", rfl⟩)).2.1⟩

/-- C10 counterexample: with an empty outline, `generate_long_report`
returns normally (`Except.ok`) with the header-only document; it does
not raise, contrary to the claim that an empty outline surfaces a
raised error to the caller. -/
theorem c10_counterexample :
    generate_long_report "电动汽车" "2026-01-01 00:00" [] =
      Except.ok (reportHeader "电动汽车" "2026-01-01 00:00") ∧
    ¬ ∃ msg, generate_long_report "电动汽车" "2026-01-01 00:00" [] = Except.error msg := by
  constructor
  · show Except.ok (reportHeader "电动汽车" "2026-01-01 00:00" ++
        get_final_bibliography GRMState.init) = _
    rw [show get_final_bibliography GRMState.init = "" from rfl, String.append_empty]
  · rintro ⟨msg, h⟩
    simp [generate_long_report] at h

/-- C10 amended: when the outline is empty, report assembly does not
raise — it returns normally with a document consisting of the report
header only, with no chapter headings and an empty bibliography. -/
theorem c10_amended_empty_outline (topic time : String) :
    generate_long_report topic time [] = Except.ok (reportHeader topic time) ∧
    get_final_bibliography (assembleChapters GRMState.init (reportHeader topic time) []).1 = "" ∧
    (∀ msg, generate_long_report topic time [] ≠ Except.error msg) := by
  refine ⟨?_, rfl, ?_⟩
  · show Except.ok (reportHeader topic time ++ get_final_bibliography GRMState.init) = _
    rw [show get_final_bibliography GRMState.init = "" from rfl, String.append_empty]
  · intro msg h
    simp [generate_long_report] at h

/-! ## Specification-side definitions for the global deduplication claim

`seenFold` walks the concatenated reference lists in processing order
and collects one `(url, title)` pair per distinct url, at its first
eligible occurrence (references with an empty tag or an empty url are
skipped, exactly as `process_chapter_content` skips them).
`firstSeenKeys` is the classic first-seen deduplication of a key list.
Both are independent of the manager state machinery. -/

/-- All references of a chapter sequence, in processing order. -/
def allRefs (chs : List (String × List ChapterRef)) : List ChapterRef :=
  (chs.map Prod.snd).flatten

/-- A reference is eligible when its tag and url are both non-empty
(the skip test of `process_chapter_content` is the negation). -/
def eligible (r : ChapterRef) : Bool :=
  !(r.id == "") && !(r.url == "")

/-- Accumulate one `(url, title)` pair per distinct url of an eligible
reference, keeping first-seen order and the first-seen title. -/
def seenFold (acc : List (String × String)) : List ChapterRef → List (String × String)
  | [] => acc
  | r :: rest =>
      if r.id = "" ∨ r.url = "" then seenFold acc rest
      else if r.url ∈ acc.map Prod.fst then seenFold acc rest
      else seenFold (acc ++ [(r.url, r.title)]) rest

/-- First-seen deduplication of a key list, filter style: keep the head
and deduplicate the tail with all copies of the head removed.  `fuel`
bounds the recursion and is initialised to the list length. -/
def fskAux : Nat → List String → List String
  | 0, _ => []
  | _ + 1, [] => []
  | f + 1, u :: rest => u :: fskAux f (rest.filter (fun v => !(v == u)))

/-- First-seen deduplication of a key list. -/
def firstSeenKeys (l : List String) : List String :=
  fskAux l.length l

/-- The urls of the eligible references, in processing order. -/
def eligibleUrls (chs : List (String × List ChapterRef)) : List String :=
  ((allRefs chs).filter eligible).map ChapterRef.url

/-- First-seen accumulation on a bare key list (the key projection of
`seenFold`). -/
def urlFold (acc : List String) : List String → List String
  | [] => acc
  | u :: rest => if u ∈ acc then urlFold acc rest else urlFold (acc ++ [u]) rest

/-- The `(url, title)` pairs of the accumulated bibliography, in
order. -/
def GRMState.pairs (st : GRMState) : List (String × String) :=
  st.global_refs.map (fun r => (r.url, r.title))

/-- Internal consistency of the manager state: the id counter is one
past the number of entries, the url map is exactly the `(url, id)`
projection of the entries, the ids are `1, 2, ..., n`, and the urls are
pairwise distinct. -/
def GRMState.Inv (st : GRMState) : Prop :=
  st.next_id = st.global_refs.length + 1 ∧
  st.url_map = st.global_refs.map (fun r => (r.url, r.id)) ∧
  st.global_refs.map GlobalRef.id = List.range' 1 st.global_refs.length ∧
  (st.global_refs.map GlobalRef.url).Nodup

/-- The manager state reached after processing a chapter sequence from
a fresh manager. -/
def stateAfter (chs : List (String × List ChapterRef)) : GRMState :=
  (runChapters GRMState.init chs).1

/-- The local-to-global mapping built while processing chapter `i` of a
chapter sequence (the `local_to_global` dict of that call). -/
def chapterMapping (chs : List (String × List ChapterRef)) (i : Nat) :
    List (String × String) :=
  (processRefs (stateAfter (chs.take i)) [] ((chs.getD i ("", [])).2)).2

theorem GRMState.init_Inv : GRMState.init.Inv :=
  ⟨rfl, rfl, rfl, List.nodup_nil⟩

theorem GRMState.pairs_fst (st : GRMState) :
    st.pairs.map Prod.fst = st.global_refs.map GlobalRef.url := by
  simp [GRMState.pairs, List.map_map]

theorem procRef_step (st : GRMState) (m : List (String × String)) (r : ChapterRef)
    (hInv : st.Inv) :
    (procRef st m r).1.Inv ∧
    (procRef st m r).1.pairs =
      (if r.id = "" ∨ r.url = "" then st.pairs
       else if r.url ∈ st.pairs.map Prod.fst then st.pairs
       else st.pairs ++ [(r.url, r.title)]) := by
  obtain ⟨hnext, hmap, hids, hnd⟩ := hInv
  by_cases hskip : r.id = "" ∨ r.url = ""
  · rw [if_pos hskip, procRef, if_pos hskip]
    exact ⟨⟨hnext, hmap, hids, hnd⟩, rfl⟩
  · have hmem_iff : (lookupAssoc st.url_map r.url).isSome = true ↔
        r.url ∈ st.pairs.map Prod.fst := by
      rw [lookupAssoc_isSome_iff, hmap, GRMState.pairs_fst]
      simp [List.map_map]
    rw [if_neg hskip, procRef, if_neg hskip]
    cases hl : lookupAssoc st.url_map r.url with
    | some g =>
        have hmem : r.url ∈ st.pairs.map Prod.fst := by
          apply hmem_iff.mp
          rw [hl]
          rfl
        rw [if_pos hmem]
        exact ⟨⟨hnext, hmap, hids, hnd⟩, rfl⟩
    | none =>
        have hmem : r.url ∉ st.pairs.map Prod.fst := by
          intro hc
          have h₂ := hmem_iff.mpr hc
          rw [hl] at h₂
          simp at h₂
        rw [if_neg hmem]
        refine ⟨⟨?_, ?_, ?_, ?_⟩, ?_⟩
        · simp [hnext]
        · simp [hmap, hnext]
        · rw [List.map_append, hids, hnext]
          simp [List.range'_concat]
          omega
        · rw [List.map_append]
          rw [GRMState.pairs_fst] at hmem
          simp [List.nodup_append, hnd, hmem]
        · simp [GRMState.pairs]

theorem processRefs_step (refs : List ChapterRef) :
    ∀ (st : GRMState) (m : List (String × String)), st.Inv →
      (processRefs st m refs).1.Inv ∧
      (processRefs st m refs).1.pairs = seenFold st.pairs refs := by
  induction refs with
  | nil => intro st m h; exact ⟨h, rfl⟩
  | cons r rest ih =>
      intro st m h
      obtain ⟨hInv₁, hpairs₁⟩ := procRef_step st m r h
      rw [processRefs]
      obtain ⟨hInv₂, hpairs₂⟩ := ih (procRef st m r).1 (procRef st m r).2 hInv₁
      refine ⟨hInv₂, ?_⟩
      rw [hpairs₂, hpairs₁, seenFold]
      by_cases hskip : r.id = "" ∨ r.url = ""
      · rw [if_pos hskip, if_pos hskip]
      · rw [if_neg hskip, if_neg hskip]
        by_cases hmem : r.url ∈ st.pairs.map Prod.fst
        · rw [if_pos hmem, if_pos hmem]
        · rw [if_neg hmem, if_neg hmem]

theorem seenFold_append (xs ys : List ChapterRef) :
    ∀ acc, seenFold acc (xs ++ ys) = seenFold (seenFold acc xs) ys := by
  induction xs with
  | nil => intro acc; rfl
  | cons r rest ih =>
      intro acc
      rw [List.cons_append, seenFold, seenFold]
      by_cases hskip : r.id = "" ∨ r.url = ""
      · rw [if_pos hskip, if_pos hskip, ih]
      · rw [if_neg hskip, if_neg hskip]
        by_cases hmem : r.url ∈ acc.map Prod.fst
        · rw [if_pos hmem, if_pos hmem, ih]
        · rw [if_neg hmem, if_neg hmem, ih]

theorem runChapters_state_step (chs : List (String × List ChapterRef)) :
    ∀ st, st.Inv →
      (runChapters st chs).1.Inv ∧
      (runChapters st chs).1.pairs = seenFold st.pairs (allRefs chs) := by
  induction chs with
  | nil => intro st h; exact ⟨h, rfl⟩
  | cons c rest ih =>
      intro st h
      obtain ⟨body, refs⟩ := c
      obtain ⟨hInv₁, hpairs₁⟩ := processRefs_step refs st [] h
      have hstate : (runChapters st ((body, refs) :: rest)).1 =
          (runChapters (processRefs st [] refs).1 rest).1 := rfl
      obtain ⟨hInv₂, hpairs₂⟩ := ih (processRefs st [] refs).1 hInv₁
      refine ⟨by rw [hstate]; exact hInv₂, ?_⟩
      rw [hstate, hpairs₂, hpairs₁]
      have hall : allRefs ((body, refs) :: rest) = refs ++ allRefs rest := by
        simp [allRefs]
      rw [hall, seenFold_append]

theorem fskAux_congr : ∀ (f₁ f₂ : Nat) (l : List String), l.length ≤ f₁ → l.length ≤ f₂ →
    fskAux f₁ l = fskAux f₂ l := by
  intro f₁
  induction f₁ with
  | zero =>
      intro f₂ l h₁ h₂
      have hl : l = [] := List.length_eq_zero.mp (Nat.le_zero.mp h₁)
      subst hl
      cases f₂ <;> rfl
  | succ n ih =>
      intro f₂ l h₁ h₂
      cases l with
      | nil => cases f₂ <;> rfl
      | cons u rest =>
          cases f₂ with
          | zero => simp at h₂
          | succ n₂ =>
              rw [fskAux, fskAux]
              congr 1
              apply ih
              · exact le_trans (List.length_filter_le _ _)
                  (by simpa using Nat.le_of_succ_le_succ h₁)
              · exact le_trans (List.length_filter_le _ _)
                  (by simpa using Nat.le_of_succ_le_succ h₂)

theorem firstSeenKeys_cons (u : String) (rest : List String) :
    firstSeenKeys (u :: rest) = u :: firstSeenKeys (rest.filter (fun v => !(v == u))) := by
  rw [firstSeenKeys, List.length_cons, fskAux]
  congr 1
  exact fskAux_congr _ _ _ (List.length_filter_le _ _) le_rfl

theorem contains_append (a b : List String) (x : String) :
    (a ++ b).contains x = (a.contains x || b.contains x) := by
  induction a with
  | nil => rfl
  | cons c a₁ ih => simp [List.contains_cons, ih, Bool.or_assoc]

theorem urlFold_fsk : ∀ (l acc : List String),
    urlFold acc l = acc ++ firstSeenKeys (l.filter (fun v => !(acc.contains v))) := by
  intro l
  induction l with
  | nil => intro acc; simp [urlFold, firstSeenKeys, fskAux]
  | cons u rest ih =>
      intro acc
      rw [urlFold]
      by_cases hmem : u ∈ acc
      · rw [if_pos hmem, ih]
        have hc : acc.contains u = true := List.elem_iff.mpr hmem
        congr 2
        rw [List.filter_cons_of_neg (by rw [hc]; simp)]
      · rw [if_neg hmem, ih]
        have hc : acc.contains u = false := by
          cases hx : acc.contains u
          · rfl
          · exact absurd (List.elem_iff.mp hx) hmem
        have hfilter : List.filter (fun v => !(acc.contains v)) (u :: rest) =
            u :: rest.filter (fun v => !(acc.contains v)) := by
          rw [List.filter_cons_of_pos (by rw [hc]; simp)]
        rw [hfilter, firstSeenKeys_cons, List.filter_filter]
        conv_rhs => rw [List.append_cons]
        congr 2
        apply List.filter_congr
        intro v _
        rw [contains_append]
        rw [show ∀ w : String, (([u] : List String).contains w) = (w == u) from
          fun w => by rw [List.contains_cons]; simp]
        rw [Bool.not_or]
        exact Bool.and_comm _ _

theorem eligible_false_iff (r : ChapterRef) :
    eligible r = false ↔ (r.id = "" ∨ r.url = "") := by
  rw [eligible]
  cases hx : r.id == "" <;> cases hy : r.url == "" <;>
    simp_all [beq_iff_eq]

theorem seenFold_keys (refs : List ChapterRef) :
    ∀ acc, (seenFold acc refs).map Prod.fst =
      urlFold (acc.map Prod.fst) ((refs.filter eligible).map ChapterRef.url) := by
  induction refs with
  | nil => intro acc; rfl
  | cons r rest ih =>
      intro acc
      rw [seenFold]
      by_cases hskip : r.id = "" ∨ r.url = ""
      · rw [if_pos hskip]
        rw [List.filter_cons_of_neg
          (by rw [eligible_false_iff r |>.mpr hskip]; simp)]
        exact ih acc
      · rw [if_neg hskip]
        have hel : eligible r = true := by
          cases hx : eligible r
          · exact absurd (eligible_false_iff r |>.mp hx) hskip
          · rfl
        rw [List.filter_cons_of_pos hel, List.map_cons, urlFold]
        by_cases hmem : r.url ∈ acc.map Prod.fst
        · rw [if_pos hmem, if_pos hmem]
          exact ih acc
        · rw [if_neg hmem, if_neg hmem, ih]
          rw [List.map_append]
          rfl

theorem seenFold_keys_init (refs : List ChapterRef) :
    (seenFold [] refs).map Prod.fst =
      firstSeenKeys ((refs.filter eligible).map ChapterRef.url) := by
  rw [seenFold_keys refs [], urlFold_fsk]
  simp only [List.map_nil, List.nil_append]
  congr 1
  rw [show (fun v : String => !(([] : List String).contains v)) =
    (fun _ : String => true) from rfl]
  exact List.filter_true _

theorem fskAux_mem : ∀ (f : Nat) (l : List String) (x : String), x ∈ fskAux f l → x ∈ l := by
  intro f
  induction f with
  | zero => intro l x h; simp [fskAux] at h
  | succ n ih =>
      intro l x h
      cases l with
      | nil => simp [fskAux] at h
      | cons u rest =>
          rw [fskAux] at h
          rcases List.mem_cons.mp h with he | hm
          · subst he; exact List.mem_cons_self _ _
          · exact List.mem_cons_of_mem _ (List.mem_of_mem_filter (ih _ _ hm))

theorem fskAux_nodup : ∀ (f : Nat) (l : List String), (fskAux f l).Nodup := by
  intro f
  induction f with
  | zero => intro l; simp [fskAux]
  | succ n ih =>
      intro l
      cases l with
      | nil => simp [fskAux]
      | cons u rest =>
          rw [fskAux]
          refine List.nodup_cons.mpr ⟨?_, ih _⟩
          intro hmem
          have h₁ := fskAux_mem _ _ _ hmem
          have h₂ := List.of_mem_filter h₁
          simp at h₂

theorem firstSeenKeys_nodup (l : List String) : (firstSeenKeys l).Nodup :=
  fskAux_nodup _ _

theorem seenFold_mem (refs : List ChapterRef) :
    ∀ (acc : List (String × String)) (u t : String), (u, t) ∈ seenFold acc refs →
      (u, t) ∈ acc ∨
      (u ∉ acc.map Prod.fst ∧ u ≠ "" ∧
        ∃ r, refs.find? (fun x => eligible x && (x.url == u)) = some r ∧ r.title = t) := by
  induction refs with
  | nil => intro acc u t h; exact Or.inl h
  | cons r rest ih =>
      intro acc u t h
      rw [seenFold] at h
      by_cases hskip : r.id = "" ∨ r.url = ""
      · rw [if_pos hskip] at h
        rcases ih acc u t h with hl | ⟨hnm, hne, rr, hfind, ht⟩
        · exact Or.inl hl
        · refine Or.inr ⟨hnm, hne, rr, ?_, ht⟩
          have hpred : ¬ (eligible r && (r.url == u)) = true := by
            rw [(eligible_false_iff r).mpr hskip]
            simp
          rw [@List.find?_cons_of_neg _ (fun x => eligible x && (x.url == u)) r rest hpred, hfind]
      · rw [if_neg hskip] at h
        push_neg at hskip
        obtain ⟨hid, hurl⟩ := hskip
        have hel : eligible r = true := by
          cases hx : eligible r
          · rcases (eligible_false_iff r).mp hx with h₁ | h₁
            · exact absurd h₁ hid
            · exact absurd h₁ hurl
          · rfl
        by_cases hmem : r.url ∈ acc.map Prod.fst
        · rw [if_pos hmem] at h
          rcases ih acc u t h with hl | ⟨hnm, hne, rr, hfind, ht⟩
          · exact Or.inl hl
          · refine Or.inr ⟨hnm, hne, rr, ?_, ht⟩
            have hru : (r.url == u) = false := by
              cases hx : r.url == u
              · rfl
              · exact absurd ((beq_iff_eq.mp hx) ▸ hmem) hnm
            have hpred : ¬ (eligible r && (r.url == u)) = true := by
              rw [hru]
              simp
            rw [@List.find?_cons_of_neg _ (fun x => eligible x && (x.url == u)) r rest hpred, hfind]
        · rw [if_neg hmem] at h
          rcases ih (acc ++ [(r.url, r.title)]) u t h with hl | ⟨hnm, hne, rr, hfind, ht⟩
          · rcases List.mem_append.mp hl with ha | hs
            · exact Or.inl ha
            · have heq : (u, t) = (r.url, r.title) := by simpa using hs
              have hu : u = r.url := congrArg Prod.fst heq
              have ht' : t = r.title := congrArg Prod.snd heq
              refine Or.inr ⟨hu ▸ hmem, hu ▸ hurl, r, ?_, ht'.symm⟩
              have hpred : (eligible r && (r.url == u)) = true := by
                rw [hel, beq_iff_eq.mpr hu.symm]
                rfl
              rw [@List.find?_cons_of_pos _ (fun x => eligible x && (x.url == u)) r rest hpred]
          · have hnm₁ : u ∉ acc.map Prod.fst := by
              intro hc
              apply hnm
              rw [List.map_append]
              exact List.mem_append.mpr (Or.inl hc)
            have hnu : ¬ u = r.url := by
              intro he
              apply hnm
              rw [List.map_append]
              apply List.mem_append.mpr
              right
              simp [he]
            refine Or.inr ⟨hnm₁, hne, rr, ?_, ht⟩
            have hru : (r.url == u) = false := by
              cases hx : r.url == u
              · rfl
              · exact absurd (beq_iff_eq.mp hx).symm hnu
            have hpred : ¬ (eligible r && (r.url == u)) = true := by
              rw [hru]
              simp
            rw [@List.find?_cons_of_neg _ (fun x => eligible x && (x.url == u)) r rest hpred, hfind]

/-! ## Lookup lemmas for the per-chapter mapping -/

theorem processRefs_lookup_notin (refs : List ChapterRef) :
    ∀ (st : GRMState) (m : List (String × String)) (k : String),
      (∀ r ∈ refs, r.id ≠ k) →
      lookupAssoc (processRefs st m refs).2 k = lookupAssoc m k := by
  induction refs with
  | nil => intro st m k _; rfl
  | cons r rest ih =>
      intro st m k h
      rw [processRefs]
      rw [ih _ _ k (fun x hx => h x (List.mem_cons_of_mem _ hx))]
      have hk : r.id ≠ k := h r (List.mem_cons_self _ _)
      rw [procRef]
      by_cases hskip : r.id = "" ∨ r.url = ""
      · rw [if_pos hskip]
      · rw [if_neg hskip]
        cases lookupAssoc st.url_map r.url with
        | some g => simp [lookupAssoc_updateAssoc, hk]
        | none => simp [lookupAssoc_updateAssoc, hk]

theorem processRefs_url_map_extend (refs : List ChapterRef) :
    ∀ (st : GRMState) (m : List (String × String)),
      ∃ ext, (processRefs st m refs).1.url_map = st.url_map ++ ext := by
  induction refs with
  | nil => intro st m; exact ⟨[], by simp [processRefs]⟩
  | cons r rest ih =>
      intro st m
      rw [processRefs, procRef]
      by_cases hskip : r.id = "" ∨ r.url = ""
      · rw [if_pos hskip]
        exact ih st m
      · rw [if_neg hskip]
        cases lookupAssoc st.url_map r.url with
        | some g => exact ih st _
        | none =>
            obtain ⟨ext, hext⟩ := ih
              { url_map := st.url_map ++ [(r.url, st.next_id)],
                next_id := st.next_id + 1,
                global_refs := st.global_refs ++ [⟨st.next_id, r.url, r.title⟩] }
              (updateAssoc m r.id ("[Ref-" ++ Nat.repr st.next_id ++ "]"))
            refine ⟨(r.url, st.next_id) :: ext, ?_⟩
            rw [hext]
            simp

theorem runChapters_url_map_extend (chs : List (String × List ChapterRef)) :
    ∀ st : GRMState, ∃ ext, (runChapters st chs).1.url_map = st.url_map ++ ext := by
  induction chs with
  | nil => intro st; exact ⟨[], by simp [runChapters]⟩
  | cons c rest ih =>
      intro st
      obtain ⟨body, refs⟩ := c
      obtain ⟨ext₁, hext₁⟩ := processRefs_url_map_extend refs st []
      obtain ⟨ext₂, hext₂⟩ := ih (processRefs st [] refs).1
      refine ⟨ext₁ ++ ext₂, ?_⟩
      show (runChapters (processRefs st [] refs).1 rest).1.url_map = _
      rw [hext₂, hext₁, List.append_assoc]

theorem processRefs_mapping (refs : List ChapterRef) :
    ∀ (st : GRMState) (m : List (String × String)),
      (refs.map ChapterRef.id).Nodup →
      ∀ r ∈ refs, ¬ r.id = "" → ¬ r.url = "" →
        ∃ g, lookupAssoc (processRefs st m refs).1.url_map r.url = some g ∧
          lookupAssoc (processRefs st m refs).2 r.id =
            some ("[Ref-" ++ Nat.repr g ++ "]") := by
  induction refs with
  | nil => intro st m _ r hr; exact absurd hr (List.not_mem_nil r)
  | cons r₀ rest ih =>
      intro st m hnd r hr hid hurl
      have hnd₁ : (rest.map ChapterRef.id).Nodup := (List.nodup_cons.mp (by simpa using hnd)).2
      have hnotin : r₀.id ∉ rest.map ChapterRef.id := (List.nodup_cons.mp (by simpa using hnd)).1
      rcases List.mem_cons.mp hr with he | hmem
      · subst he
        have hskip : ¬ (r.id = "" ∨ r.url = "") := by tauto
        rw [processRefs, procRef, if_neg hskip]
        cases hl : lookupAssoc st.url_map r.url with
        | some g =>
            refine ⟨g, ?_, ?_⟩
            · obtain ⟨ext, hext⟩ := processRefs_url_map_extend rest st
                (updateAssoc m r.id ("[Ref-" ++ Nat.repr g ++ "]"))
              rw [hext]
              exact lookupAssoc_append_some _ hl
            · rw [processRefs_lookup_notin rest _ _ r.id
                (fun x hx hxe => hnotin (hxe ▸ List.mem_map_of_mem ChapterRef.id hx))]
              rw [lookupAssoc_updateAssoc]
              simp
        | none =>
            refine ⟨st.next_id, ?_, ?_⟩
            · obtain ⟨ext, hext⟩ := processRefs_url_map_extend rest
                { url_map := st.url_map ++ [(r.url, st.next_id)],
                  next_id := st.next_id + 1,
                  global_refs := st.global_refs ++ [⟨st.next_id, r.url, r.title⟩] }
                (updateAssoc m r.id ("[Ref-" ++ Nat.repr st.next_id ++ "]"))
              rw [hext]
              show lookupAssoc ((st.url_map ++ [(r.url, st.next_id)]) ++ ext) r.url = _
              apply lookupAssoc_append_some
              rw [lookupAssoc_append_none _ hl]
              simp [lookupAssoc]
            · rw [processRefs_lookup_notin rest _ _ r.id
                (fun x hx hxe => hnotin (hxe ▸ List.mem_map_of_mem ChapterRef.id hx))]
              rw [lookupAssoc_updateAssoc]
              simp
      · rw [processRefs]
        exact ih (procRef st m r₀).1 (procRef st m r₀).2 hnd₁ r hmem hid hurl

theorem runChapters_append (xs ys : List (String × List ChapterRef)) :
    ∀ st, runChapters st (xs ++ ys) =
      ((runChapters (runChapters st xs).1 ys).1,
       (runChapters st xs).2 ++ (runChapters (runChapters st xs).1 ys).2) := by
  induction xs with
  | nil => intro st; simp [runChapters]
  | cons c rest ih =>
      intro st
      obtain ⟨body, refs⟩ := c
      rw [List.cons_append, runChapters, ih, runChapters]
      simp

theorem runChapters_length (chs : List (String × List ChapterRef)) :
    ∀ st, (runChapters st chs).2.length = chs.length := by
  induction chs with
  | nil => intro st; rfl
  | cons c rest ih =>
      intro st
      obtain ⟨body, refs⟩ := c
      rw [runChapters]
      simp [ih]

/-- C1: over any sequence of `process_chapter_content` calls on a
single fresh manager (with pairwise-distinct tags within each chapter),
the final bibliography entries are exactly one `(url, title)` pair per
distinct non-empty URL carried by a processed reference, in first-seen
order (`seenFold`, whose key projection is the first-seen
deduplication `firstSeenKeys` of the eligible urls), with 1-based
consecutive global ids, the title being the one supplied at the url's
first eligible occurrence; and every local reference to a url, in any
chapter, is mapped to the same global id — the one recorded for that
url in the final url map — while each emitted body is the marker
rewrite of the chapter input through that chapter's mapping. -/
theorem c1_global_dedup (chs : List (String × List ChapterRef))
    (hdist : ∀ ch ∈ chs, ((ch.2.map ChapterRef.id).Nodup)) :
    ((runChapters GRMState.init chs).1.pairs = seenFold [] (allRefs chs)) ∧
    ((runChapters GRMState.init chs).1.global_refs.map GlobalRef.id =
      List.range' 1 (seenFold [] (allRefs chs)).length) ∧
    ((seenFold [] (allRefs chs)).map Prod.fst = firstSeenKeys (eligibleUrls chs)) ∧
    ((seenFold [] (allRefs chs)).map Prod.fst).Nodup ∧
    (∀ u t, (u, t) ∈ seenFold [] (allRefs chs) → u ≠ "" ∧
      ∃ r, (allRefs chs).find? (fun x => eligible x && (x.url == u)) = some r ∧
        r.title = t) ∧
    (∀ i, i < chs.length →
      (∀ r ∈ (chs.getD i ("", [])).2, ¬ r.id = "" → ¬ r.url = "" →
        ∃ g, lookupAssoc (runChapters GRMState.init chs).1.url_map r.url = some g ∧
          lookupAssoc (chapterMapping chs i) r.id =
            some ("[Ref-" ++ Nat.repr g ++ "]")) ∧
      (runChapters GRMState.init chs).2.getD i "" =
        String.mk (rewriteTags (chapterMapping chs i)
          ((chs.getD i ("", [])).1).data)) := by
  obtain ⟨hInv, hpairs⟩ := runChapters_state_step chs GRMState.init GRMState.init_Inv
  have hpairs₀ : (runChapters GRMState.init chs).1.pairs = seenFold [] (allRefs chs) :=
    hpairs
  have hlen : (runChapters GRMState.init chs).1.global_refs.length =
      (seenFold [] (allRefs chs)).length := by
    rw [← hpairs₀, GRMState.pairs, List.length_map]
  refine ⟨hpairs₀, ?_, ?_, ?_, ?_, ?_⟩
  · rw [hInv.2.2.1, hlen]
  · exact seenFold_keys_init (allRefs chs)
  · rw [seenFold_keys_init (allRefs chs)]
    exact firstSeenKeys_nodup _
  · intro u t hmem
    rcases seenFold_mem (allRefs chs) [] u t hmem with hl | ⟨_, hne, r, hfind, ht⟩
    · exact absurd hl (List.not_mem_nil _)
    · exact ⟨hne, r, hfind, ht⟩
  · intro i hi
    rcases hc : chs.getD i ("", []) with ⟨body, refs⟩
    have hdecomp : chs = chs.take i ++ (body, refs) :: chs.drop (i + 1) := by
      conv_lhs => rw [← List.take_append_drop i chs]
      congr 1
      rw [List.drop_eq_getElem_cons hi, ← List.getD_eq_getElem chs ("", []) hi, hc]
    have hndrefs : (refs.map ChapterRef.id).Nodup := by
      have hmem : chs.getD i ("", []) ∈ chs := by
        rw [List.getD_eq_getElem chs ("", []) hi]
        exact List.getElem_mem hi
      have h := hdist _ hmem
      rw [hc] at h
      exact h
    have hmapping : chapterMapping chs i =
        (processRefs (stateAfter (chs.take i)) [] refs).2 := by
      rw [chapterMapping, hc]
    have hInvPre : (stateAfter (chs.take i)).Inv :=
      (runChapters_state_step (chs.take i) GRMState.init GRMState.init_Inv).1
    have hfull : (runChapters GRMState.init chs).1 =
        (runChapters (processRefs (stateAfter (chs.take i)) [] refs).1
          (chs.drop (i + 1))).1 := by
      conv_lhs => rw [hdecomp]
      rw [runChapters_append]
      rfl
    constructor
    · intro r hr hid hurl
      obtain ⟨g, hg_url, hg_map⟩ :=
        processRefs_mapping refs (stateAfter (chs.take i)) [] hndrefs r hr hid hurl
      obtain ⟨ext, hext⟩ := runChapters_url_map_extend (chs.drop (i + 1))
        (processRefs (stateAfter (chs.take i)) [] refs).1
      refine ⟨g, ?_, ?_⟩
      · rw [hfull, hext]
        exact lookupAssoc_append_some _ hg_url
      · rw [hmapping]
        exact hg_map
    · have hout : (runChapters GRMState.init chs).2 =
          (runChapters GRMState.init (chs.take i)).2 ++
            (String.mk (rewriteTags (processRefs (stateAfter (chs.take i)) [] refs).2
                body.data) ::
              (runChapters (processRefs (stateAfter (chs.take i)) [] refs).1
                (chs.drop (i + 1))).2) := by
        conv_lhs => rw [hdecomp]
        rw [runChapters_append]
        rfl
      have hlen₂ : (runChapters GRMState.init (chs.take i)).2.length = i := by
        rw [runChapters_length, List.length_take]
        exact Nat.min_eq_left (Nat.le_of_lt hi)
      rw [hout, List.getD_append_right _ _ _ _ (by rw [hlen₂]), hlen₂,
        Nat.sub_self, List.getD_cons_zero, hmapping]

/-- Witness for C1 at the spec deduplication example: chapters A and B
both cite `https://x.com` under local tag `[Ref-1]` with different
titles; the bibliography has exactly one entry, titled `X`
(first-seen), and both bodies cite global id 1. -/
theorem c1_global_dedup_witness :
    ((runChapters GRMState.init
        [("A cites [Ref-1].", [⟨"[Ref-1]", "https://x.com", "X"⟩]),
         ("B cites [Ref-1].", [⟨"[Ref-1]", "https://x.com", "X-renamed"⟩])]).1.pairs =
      seenFold [] (allRefs
        [("A cites [Ref-1].", [⟨"[Ref-1]", "https://x.com", "X"⟩]),
         ("B cites [Ref-1].", [⟨"[Ref-1]", "https://x.com", "X-renamed"⟩])])) ∧
    seenFold [] (allRefs
        [("A cites [Ref-1].", [⟨"[Ref-1]", "https://x.com", "X"⟩]),
         ("B cites [Ref-1].", [⟨"[Ref-1]", "https://x.com", "X-renamed"⟩])]) =
      [("https://x.com", "X")] ∧
    (runChapters GRMState.init
        [("A cites [Ref-1].", [⟨"[Ref-1]", "https://x.com", "X"⟩]),
         ("B cites [Ref-1].", [⟨"[Ref-1]", "https://x.com", "X-renamed"⟩])]).2 =
      ["A cites [Ref-1].", "B cites [Ref-1]."] ∧
    (runChapters GRMState.init
        [("A cites [Ref-1].", [⟨"[Ref-1]", "https://x.com", "X"⟩]),
         ("B cites [Ref-1].", [⟨"[Ref-1]", "https://x.com", "X-renamed"⟩])]).1.global_refs =
      [⟨1, "https://x.com", "X"⟩] :=
  ⟨(c1_global_dedup
      [("A cites [Ref-1].", [⟨"[Ref-1]", "https://x.com", "X"⟩]),
       ("B cites [Ref-1].", [⟨"[Ref-1]", "https://x.com", "X-renamed"⟩])]
      (by decide)).1,
   by decide, by decide, by decide⟩

end S2P
